import Mathlib

/-!
Verification of the icongen image pipeline (src/main.go) against its specification.

The Go program manipulates 8-bit RGBA pixel buffers (`image.RGBA`) and computes the
resize geometry in IEEE-754 binary64 (`float64`) arithmetic.  The embedding below
models a pixel buffer as a width, a height and a total pixel function (Go `At`
returns the zero `color.RGBA{}` outside bounds, and every buffer this program
builds starts fully transparent), and models `float64` arithmetic exactly over `ℚ`:
every Go operation `x ∘ y` is embedded as the rounding `fl (x ∘ y)` of the exact
rational result, where `fl` is round-to-nearest, ties-to-even, 53-bit mantissa,
with unbounded exponent range (no overflow/underflow: every value this program
produces is far inside the normal binary64 range, so the model agrees with
hardware floats there; the model was cross-checked against hardware binary64 on
several hundred thousand random inputs).
-/

namespace IconGen

attribute [local semireducible] Rat.mul Rat.add Rat.inv Rat.sub

/-! ## Kernel-computable numeric primitives -/

/-- Truncated base-2 logarithm with explicit fuel, so that it reduces inside the
kernel (`Nat.log2` is defined by well-founded recursion and does not). -/
def log2Fuel : ℕ → ℕ → ℕ
  | 0, _ => 0
  | fuel + 1, n => if n < 2 then 0 else log2Fuel fuel (n / 2) + 1

/-- Truncated base-2 logarithm of a natural number. -/
def natLog2 (n : ℕ) : ℕ := log2Fuel n n

/-- Floor of a rational as integer division of numerator by denominator. -/
def qfloor (q : ℚ) : ℤ := q.num / q.den

/-- Go conversion `int(f)` of a `float64`: truncation toward zero. -/
def truncQ (q : ℚ) : ℤ := if q < 0 then -(qfloor (-q)) else qfloor q

/-- Round a rational to the nearest integer, ties going to the even integer
(the IEEE-754 default rounding used by all binary64 operations). -/
def rne (q : ℚ) : ℤ :=
  let f := qfloor q
  let r := q - (f : ℚ)
  if r < 1 / 2 then f else if 1 / 2 < r then f + 1 else if f % 2 = 0 then f else f + 1

/-- Integer power of two as a rational, `pow2z e = 2 ^ e`, kept kernel-computable. -/
def pow2z (e : ℤ) : ℚ := if 0 ≤ e then ((2 ^ e.toNat : ℕ) : ℚ) else 1 / ((2 ^ (-e).toNat : ℕ) : ℚ)

/-- Truncated base-2 logarithm of a positive rational:
the unique `l` with `2 ^ l ≤ q < 2 ^ (l + 1)`. -/
def ratLog2 (q : ℚ) : ℤ :=
  let l0 : ℤ := (natLog2 q.num.natAbs : ℤ) - (natLog2 q.den : ℤ)
  if q < pow2z l0 then l0 - 1 else l0

/-- Round a positive rational to the nearest binary64 value: scale into the 53-bit
mantissa range `[2^52, 2^53)`, round to an integer mantissa, scale back. -/
def flPos (q : ℚ) : ℚ :=
  let e : ℤ := ratLog2 q - 52
  (rne (q * pow2z (-e)) : ℚ) * pow2z e

/-- IEEE-754 binary64 rounding (round-to-nearest, ties-to-even, unbounded exponent)
of an exact rational value.  Every Go `float64` operation in `resizeImage` is
embedded as `fl` applied to the exact rational result of that operation. -/
def fl (q : ℚ) : ℚ :=
  if q = 0 then 0 else if q < 0 then -(flPos (-q)) else flPos q

/-- Go `float64` addition: exact sum, then binary64 rounding. -/
def flAdd (a b : ℚ) : ℚ := fl (a + b)

/-- Go `float64` subtraction: exact difference, then binary64 rounding. -/
def flSub (a b : ℚ) : ℚ := fl (a - b)

/-- Go `float64` multiplication: exact product, then binary64 rounding. -/
def flMul (a b : ℚ) : ℚ := fl (a * b)

/-- Go `float64` division: exact quotient, then binary64 rounding. -/
def flDiv (a b : ℚ) : ℚ := fl (a / b)

/-- Go `math.Max` on (non-NaN) floats. -/
def goMax (x y : ℚ) : ℚ := if x < y then y else x

/-- Go integer division for a positive divisor: truncation toward zero. -/
def goDiv (a b : ℤ) : ℤ := if 0 ≤ a then a / b else -((-a) / b)

/-! ## Pixel buffers (Go image.RGBA restricted to zero-based bounds) -/

/-- One 8-bit RGBA sample, as stored by Go `color.RGBA`. -/
structure Pix where
  r : ℕ
  g : ℕ
  b : ℕ
  a : ℕ
deriving DecidableEq, Repr

/-- The fully transparent pixel `color.RGBA{0, 0, 0, 0}`. -/
def zeroPix : Pix := ⟨0, 0, 0, 0⟩

/-- An RGBA pixel buffer with bounds `[0, width) × [0, height)`.  `pix` is total:
Go `RGBA.At` returns the zero color outside bounds, and `RGBA.Set` ignores
out-of-bounds writes, which the constructions below reflect. -/
structure Image where
  width : ℤ
  height : ℤ
  pix : ℤ → ℤ → Pix

/-! ## cropCenter (src/main.go lines 237-263) -/

/-- Embedding of Go `cropCenter`: crop dimensions `width*percent/100` (integer
division), centering offsets `(dim - cropDim)/2`, and a `draw.Draw` copy of the
centered sub-rectangle into a fresh (transparent) `cropWidth × cropHeight` buffer.
`draw.Draw` clips against the source bounds; unwritten pixels stay transparent. -/
def cropCenter (img : Image) (percent : ℤ) : Image :=
  let cropWidth := goDiv (img.width * percent) 100
  let cropHeight := goDiv (img.height * percent) 100
  let offsetX := goDiv (img.width - cropWidth) 2
  let offsetY := goDiv (img.height - cropHeight) 2
  { width := cropWidth
    height := cropHeight
    pix := fun x y =>
      if 0 ≤ x ∧ x < cropWidth ∧ 0 ≤ y ∧ y < cropHeight ∧
         0 ≤ offsetX + x ∧ offsetX + x < img.width ∧
         0 ≤ offsetY + y ∧ offsetY + y < img.height then
        img.pix (offsetX + x) (offsetY + y)
      else zeroPix }

/-! ## resizeImage (src/main.go lines 265-345) -/

/-- Go `scale := float64(size) / math.Max(float64(width), float64(height))`. -/
def resizeScale (img : Image) (size : ℤ) : ℚ :=
  flDiv (fl (size : ℚ)) (goMax (fl (img.width : ℚ)) (fl (img.height : ℚ)))

/-- Go `newWidth := int(float64(width) * scale)`. -/
def newContentWidth (img : Image) (size : ℤ) : ℤ :=
  truncQ (flMul (fl (img.width : ℚ)) (resizeScale img size))

/-- Go `newHeight := int(float64(height) * scale)`. -/
def newContentHeight (img : Image) (size : ℤ) : ℤ :=
  truncQ (flMul (fl (img.height : ℚ)) (resizeScale img size))

/-- Go `offsetX := (size - newWidth) / 2`. -/
def resizeOffX (img : Image) (size : ℤ) : ℤ := goDiv (size - newContentWidth img size) 2

/-- Go `offsetY := (size - newHeight) / 2`. -/
def resizeOffY (img : Image) (size : ℤ) : ℤ := goDiv (size - newContentHeight img size) 2

/-- Go `color.RGBA.RGBA()`: widen an 8-bit channel to 16 bits, `c | c << 8 = c * 0x101`. -/
def chan16 (c : ℕ) : ℕ := c * 257

/-- Embedding of Go `bilinearInterpolate` (src/main.go lines 369-376), each
`float64` operation rounded individually. -/
def bilinearInterpolate (c00 c10 c01 c11 fracX fracY : ℚ) : ℚ :=
  let top := flAdd (flMul c00 (flSub 1 fracX)) (flMul c10 fracX)
  let bottom := flAdd (flMul c01 (flSub 1 fracX)) (flMul c11 fracX)
  flAdd (flMul top (flSub 1 fracY)) (flMul bottom fracY)

/-- Go stores the interpolated channel with `uint16(v)` (truncation toward zero,
in-range for every value this loop produces) and `RGBA.Set` then converts the
`color.RGBA64` to 8-bit RGBA by `channel >> 8`. -/
def chan8ofQ (q : ℚ) : ℕ := (truncQ q).toNat % 65536 / 256

/-- Body of the per-destination-pixel work of Go `resizeImage` (lines 287-341) at
content coordinates `(x, y)`: source coordinate with sub-pixel precision, edge
clamp (pinning the fractional weight to 1.0), and the guarded bilinear blend.
When the lower-bound guard fails the Go loop writes nothing, leaving the
destination pixel transparent, which is the `zeroPix` branch here. -/
def computeResizedPixel (img : Image) (scale : ℚ) (x y : ℤ) : Pix :=
  let srcXf := flDiv (fl (x : ℚ)) scale
  let srcYf := flDiv (fl (y : ℚ)) scale
  let sx0 := truncQ srcXf
  let sy0 := truncQ srcYf
  let fx0 := flSub srcXf (fl (sx0 : ℚ))
  let fy0 := flSub srcYf (fl (sy0 : ℚ))
  let sx := if img.width - 1 ≤ sx0 then img.width - 2 else sx0
  let fx := if img.width - 1 ≤ sx0 then (1 : ℚ) else fx0
  let sy := if img.height - 1 ≤ sy0 then img.height - 2 else sy0
  let fy := if img.height - 1 ≤ sy0 then (1 : ℚ) else fy0
  if 0 ≤ sx ∧ 0 ≤ sy then
    let p00 := img.pix sx sy
    let p10 := img.pix (sx + 1) sy
    let p01 := img.pix sx (sy + 1)
    let p11 := img.pix (sx + 1) (sy + 1)
    { r := chan8ofQ (bilinearInterpolate (chan16 p00.r) (chan16 p10.r) (chan16 p01.r)
            (chan16 p11.r) fx fy)
      g := chan8ofQ (bilinearInterpolate (chan16 p00.g) (chan16 p10.g) (chan16 p01.g)
            (chan16 p11.g) fx fy)
      b := chan8ofQ (bilinearInterpolate (chan16 p00.b) (chan16 p10.b) (chan16 p01.b)
            (chan16 p11.b) fx fy)
      a := chan8ofQ (bilinearInterpolate (chan16 p00.a) (chan16 p10.a) (chan16 p01.a)
            (chan16 p11.a) fx fy) }
  else zeroPix

/-- Embedding of Go `resizeImage`: a `size × size` buffer filled transparent, with
the scaled content written at the centering offsets.  The loop writes destination
pixel `(offsetX + x, offsetY + y)` exactly once for each content coordinate
`(x, y) ∈ [0, newWidth) × [0, newHeight)`; every other destination pixel keeps the
transparent fill, which the functional form expresses directly. -/
def resizeImage (img : Image) (size : ℤ) : Image :=
  { width := size
    height := size
    pix := fun X Y =>
      if 0 ≤ X ∧ X < size ∧ 0 ≤ Y ∧ Y < size then
        if resizeOffX img size ≤ X ∧ X < resizeOffX img size + newContentWidth img size ∧
           resizeOffY img size ≤ Y ∧ Y < resizeOffY img size + newContentHeight img size then
          computeResizedPixel img (resizeScale img size)
            (X - resizeOffX img size) (Y - resizeOffY img size)
        else zeroPix
      else zeroPix }

/-! ## shouldKeepPixel and addRoundedCorners (src/main.go lines 347-367, 409-446) -/

/-- Embedding of Go `shouldKeepPixel`.  The source compares
`math.Sqrt(dx*dx + dy*dy) <= float64(radius)` in `float64`; for integer `dx`,
`dy`, `radius` of the magnitudes an image can reach (well below `2^26`) the
correctly rounded square root makes that comparison equivalent to the exact
integer comparison `dx*dx + dy*dy ≤ radius*radius` used here (sqrt is monotone
and exact on perfect squares). -/
def shouldKeepPixel (x y size radius : ℤ) : Bool :=
  if radius = 0 then true
  else
    let inTopLeft := decide (x < radius) && decide (y < radius)
    let inTopRight := decide (size - radius ≤ x) && decide (y < radius)
    let inBottomLeft := decide (x < radius) && decide (size - radius ≤ y)
    let inBottomRight := decide (size - radius ≤ x) && decide (size - radius ≤ y)
    if !(inTopLeft || inTopRight || inBottomLeft || inBottomRight) then true
    else
      let c : ℤ × ℤ :=
        if inTopLeft then (radius, radius)
        else if inTopRight then (size - radius, radius)
        else if inBottomLeft then (radius, size - radius)
        else (size - radius, size - radius)
      let dx := x - c.1
      let dy := y - c.2
      decide (dx * dx + dy * dy ≤ radius * radius)

/-- Embedding of Go `addRoundedCorners`: same bounds as the input, every pixel of
the `[0, size) × [0, size)` loop (`size = bounds.Dx()`) either copied or made
transparent; rows the loop does not reach stay transparent. -/
def addRoundedCorners (img : Image) (radius : ℤ) : Image :=
  let size := img.width
  { width := img.width
    height := img.height
    pix := fun x y =>
      if 0 ≤ x ∧ x < size ∧ 0 ≤ y ∧ y < size ∧ y < img.height then
        if shouldKeepPixel x y size radius then img.pix x y else zeroPix
      else zeroPix }

/-! ## addPadding (src/main.go lines 378-407) -/

/-- Embedding of Go `addPadding`: identity when `paddingPercent <= 0`; otherwise
build a transparent `paddedSize × paddedSize` canvas (`paddedSize = currentSize +
2 * currentSize * paddingPercent / 100`, with `currentSize = bounds.Dx()`), draw
the source centered at offset `(paddingSize, paddingSize)` (clipped to the source
bounds, as `draw.Draw` does), then resize back to `targetSize`. -/
def addPadding (img : Image) (paddingPercent targetSize : ℤ) : Image :=
  if paddingPercent ≤ 0 then img
  else
    let currentSize := img.width
    let paddingSize := goDiv (currentSize * paddingPercent) 100
    let paddedSize := currentSize + paddingSize * 2
    let padded : Image :=
      { width := paddedSize
        height := paddedSize
        pix := fun x y =>
          if 0 ≤ x ∧ x < paddedSize ∧ 0 ≤ y ∧ y < paddedSize ∧
             paddingSize ≤ x ∧ x < paddingSize + currentSize ∧
             paddingSize ≤ y ∧ y < paddingSize + currentSize ∧
             y - paddingSize < img.height then
            img.pix (x - paddingSize) (y - paddingSize)
          else zeroPix }
    resizeImage padded targetSize

/-! ## Configuration, validation and the generation pipeline
(src/main.go lines 16-25, 32-44, 114-132, 134-214) -/

/-- The transform-relevant fields of Go `Config` (the path fields only feed the
I/O collaborators). -/
structure Config where
  cropEnabled : Bool
  trimPercent : ℤ
  radiusPercent : ℤ
  paddingPercent : ℤ
  paddingIOSMode : Bool
deriving DecidableEq, Repr

/-- One entry of the fixed icon-size table. -/
structure IconSize where
  name : String
  size : ℤ
deriving DecidableEq, Repr

/-- The fixed 11-entry spec table `iconSizes` (src/main.go lines 32-44). -/
def iconSizes : List IconSize :=
  [⟨"icon_16x16.png", 16⟩,
   ⟨"icon_16x16@2x.png", 32⟩,
   ⟨"icon_32x32.png", 32⟩,
   ⟨"icon_32x32@2x.png", 64⟩,
   ⟨"icon_128x128.png", 128⟩,
   ⟨"icon_128x128@2x.png", 256⟩,
   ⟨"icon_256x256.png", 256⟩,
   ⟨"icon_256x256@2x.png", 512⟩,
   ⟨"icon_512x512.png", 512⟩,
   ⟨"icon_512x512@2x.png", 1024⟩,
   ⟨"icon_1024x1024.png", 1024⟩]

/-- The validation failures Go `validateConfig` reports. -/
inductive ValidationError where
  | inputNotFound
  | trimOutOfRange
  | radiusOutOfRange
  | paddingOutOfRange
deriving DecidableEq, Repr

/-- Embedding of Go `validateConfig`; `inputExists` stands for the `os.Stat`
probe of the input path (the only I/O the function performs). -/
def validateConfig (inputExists : Bool) (c : Config) : Option ValidationError :=
  if !inputExists then some ValidationError.inputNotFound
  else if decide (c.trimPercent < 1) || decide (100 < c.trimPercent) then
    some ValidationError.trimOutOfRange
  else if decide (c.radiusPercent < 0) || decide (50 < c.radiusPercent) then
    some ValidationError.radiusOutOfRange
  else if decide (c.paddingPercent < 0) || decide (50 < c.paddingPercent) then
    some ValidationError.paddingOutOfRange
  else none

/-- Go: `strings.TrimSuffix(name, ".png") + "_rounded.png"`. -/
def roundedName (name : String) : String :=
  (if name.endsWith (".png") then name.dropRight 4 else name) ++ "_rounded.png"

/-- Padding applies when `PaddingPercent > 0`, except that iOS mode exempts the
base `icon_1024x1024.png` spec (src/main.go lines 174-177 and 198-201). -/
def shouldApplyPadding (c : Config) (s : IconSize) : Bool :=
  decide (0 < c.paddingPercent) &&
    !(c.paddingIOSMode && decide (s.name = ("icon_1024x1024.png" : String)))

/-- The buffers one iteration of the Go `generateIcons` loop hands to the encode
collaborator for the spec `s` (src/main.go lines 166-211), in emission order. -/
def specOutputs (c : Config) (source : Image) (s : IconSize) : List (String × Image) :=
  let resized := resizeImage source s.size
  let processed :=
    if shouldApplyPadding c s then addPadding resized c.paddingPercent s.size else resized
  if 0 < c.radiusPercent then
    let radius := goDiv (s.size * c.radiusPercent) 100
    let rounded := addRoundedCorners resized radius
    let processedRounded :=
      if shouldApplyPadding c s then addPadding rounded c.paddingPercent s.size else rounded
    [(s.name, processed), (roundedName s.name, processedRounded)]
  else [(s.name, processed)]

/-- The optional pre-crop of the source (src/main.go lines 157-163). -/
def cropSource (c : Config) (src : Image) : Image :=
  if c.cropEnabled then cropCenter src c.trimPercent else src

/-- Embedding of the pure transform core of Go `generateIcons`: the ordered list
of (name, buffer) pairs emitted over the fixed spec table. -/
def generateIcons (c : Config) (src : Image) : List (String × Image) :=
  iconSizes.flatMap (specOutputs c (cropSource c src))

/-- Embedding of `main`: validation runs first and a failure aborts before any
transform (src/main.go lines 46-60). -/
def runMain (inputExists : Bool) (c : Config) (src : Image) :
    Except ValidationError (List (String × Image)) :=
  match validateConfig inputExists c with
  | some e => Except.error e
  | none => Except.ok (generateIcons c src)

/-! ## Concrete inputs used by witnesses and counterexamples -/

/-- A `w × h` buffer holding the pixel `p` everywhere in bounds (and, like every
Go `image.RGBA`, the zero color outside bounds). -/
def solidImg (w h : ℤ) (p : Pix) : Image :=
  { width := w
    height := h
    pix := fun x y => if 0 ≤ x ∧ x < w ∧ 0 ≤ y ∧ y < h then p else zeroPix }

/-- An opaque 49 × 49 source image. -/
def img49 : Image := solidImg 49 49 ⟨10, 20, 30, 255⟩

/-- An opaque 1 × 2 source image (degenerate width). -/
def img1x2 : Image := solidImg 1 2 ⟨1, 2, 3, 255⟩

/-- A fully transparent 2 × 2 source image. -/
def img2clear : Image := solidImg 2 2 zeroPix

/-- An opaque 4 × 4 source image. -/
def img4 : Image := solidImg 4 4 ⟨7, 8, 9, 255⟩

/-- An opaque 6 × 4 source image. -/
def img6x4 : Image := solidImg 6 4 ⟨1, 1, 1, 255⟩

/-- A sample in-range configuration. -/
def cfgSample : Config :=
  { cropEnabled := false
    trimPercent := 80
    radiusPercent := 20
    paddingPercent := 15
    paddingIOSMode := true }

/-! ## Groundwork: the numeric primitives meet their specifications -/

theorem log2Fuel_spec (fuel : ℕ) : ∀ n, 1 ≤ n → n ≤ fuel →
    2 ^ log2Fuel fuel n ≤ n ∧ n < 2 ^ (log2Fuel fuel n + 1) := by
  induction fuel with
  | zero => intro n h1 h2; omega
  | succ f ih =>
    intro n h1 h2
    by_cases hn : n < 2
    · have hn1 : n = 1 := by omega
      subst hn1
      simp [log2Fuel]
    · have hrec := ih (n / 2) (by omega) (by omega)
      simp only [log2Fuel, if_neg hn]
      simp only [pow_succ] at hrec ⊢
      omega

theorem natLog2_spec (n : ℕ) (h : 1 ≤ n) :
    2 ^ natLog2 n ≤ n ∧ n < 2 ^ (natLog2 n + 1) :=
  log2Fuel_spec n n h le_rfl

theorem qfloor_eq_floor (q : ℚ) : qfloor q = ⌊q⌋ := by
  rw [Rat.floor_def]; rfl

theorem truncQ_eq_floor (q : ℚ) (h : 0 ≤ q) : truncQ q = ⌊q⌋ := by
  unfold truncQ
  rw [if_neg (not_lt.mpr h), qfloor_eq_floor]

theorem truncQ_nonneg (q : ℚ) (h : 0 ≤ q) : 0 ≤ truncQ q := by
  rw [truncQ_eq_floor q h]
  exact Int.floor_nonneg.mpr h

theorem rne_intCast (n : ℤ) : rne (n : ℚ) = n := by
  simp only [rne, qfloor_eq_floor, Int.floor_intCast, sub_self]
  norm_num

theorem rne_abs_sub_le (q : ℚ) : |(rne q : ℚ) - q| ≤ 1 / 2 := by
  have h1 := Int.floor_le q
  have h2 := Int.lt_floor_add_one q
  by_cases hc1 : q - (⌊q⌋ : ℚ) < 1 / 2
  · have he : rne q = ⌊q⌋ := by
      simp only [rne, qfloor_eq_floor]
      rw [if_pos hc1]
    rw [he, abs_sub_le_iff]
    constructor <;> linarith
  · by_cases hc2 : 1 / 2 < q - (⌊q⌋ : ℚ)
    · have he : rne q = ⌊q⌋ + 1 := by
        simp only [rne, qfloor_eq_floor]
        rw [if_neg hc1, if_pos hc2]
      rw [he, abs_sub_le_iff]
      push_cast
      constructor <;> linarith
    · have hr : q - (⌊q⌋ : ℚ) = 1 / 2 := by linarith
      have he : rne q = ⌊q⌋ ∨ rne q = ⌊q⌋ + 1 := by
        simp only [rne, qfloor_eq_floor]
        rw [if_neg hc1, if_neg hc2]
        by_cases hp : ⌊q⌋ % 2 = 0
        · exact Or.inl (if_pos hp)
        · exact Or.inr (if_neg hp)
      rcases he with he | he <;> rw [he, abs_sub_le_iff] <;> push_cast <;>
        constructor <;> linarith

theorem pow2z_eq_zpow (e : ℤ) : pow2z e = (2 : ℚ) ^ e := by
  unfold pow2z
  split
  · rename_i h
    have hz := zpow_natCast (2 : ℚ) e.toNat
    rw [Nat.cast_pow, Nat.cast_ofNat, ← hz, Int.toNat_of_nonneg h]
  · rename_i h
    have hz := zpow_natCast (2 : ℚ) (-e).toNat
    rw [Nat.cast_pow, Nat.cast_ofNat, ← hz, Int.toNat_of_nonneg (by omega : (0 : ℤ) ≤ -e),
      one_div, ← zpow_neg, neg_neg]

theorem pow2z_pos (e : ℤ) : 0 < pow2z e := by
  rw [pow2z_eq_zpow]
  positivity

theorem pow2z_add (a b : ℤ) : pow2z (a + b) = pow2z a * pow2z b := by
  simp only [pow2z_eq_zpow]
  exact zpow_add₀ two_ne_zero a b

theorem pow2z_zero : pow2z 0 = 1 := by norm_num [pow2z]

theorem pow2z_neg_mul_self (e : ℤ) : pow2z (-e) * pow2z e = 1 := by
  rw [← pow2z_add, neg_add_cancel, pow2z_zero]

theorem pow2z_le_pow2z {a b : ℤ} (h : a ≤ b) : pow2z a ≤ pow2z b := by
  simp only [pow2z_eq_zpow]
  exact zpow_le_zpow_right₀ one_le_two h

theorem pow2z_natCast (n : ℕ) : pow2z (n : ℤ) = (2 : ℚ) ^ n := by
  rw [pow2z_eq_zpow, zpow_natCast]

theorem ratLog2_spec (q : ℚ) (hq : 0 < q) :
    pow2z (ratLog2 q) ≤ q ∧ q < pow2z (ratLog2 q + 1) := by
  have hnum : 0 < q.num := Rat.num_pos.mpr hq
  have ha : 1 ≤ q.num.natAbs := by omega
  have hb : 1 ≤ q.den := q.den_pos
  obtain ⟨hA1, hA2⟩ := natLog2_spec q.num.natAbs ha
  obtain ⟨hB1, hB2⟩ := natLog2_spec q.den hb
  set la := natLog2 q.num.natAbs with hla
  set lb := natLog2 q.den with hlb
  have hbq : (0 : ℚ) < (q.den : ℚ) := by exact_mod_cast hb
  have hqab : q = (q.num.natAbs : ℚ) / (q.den : ℚ) := by
    rw [show ((q.num.natAbs : ℚ)) = ((q.num : ℚ)) by
      rw [Int.cast_natAbs]
      exact_mod_cast abs_of_nonneg hnum.le]
    exact (Rat.num_div_den q).symm
  have hA1Q : (2 : ℚ) ^ la ≤ (q.num.natAbs : ℚ) := by exact_mod_cast hA1
  have hA2Q : (q.num.natAbs : ℚ) < (2 : ℚ) ^ (la + 1) := by exact_mod_cast hA2
  have hB1Q : (2 : ℚ) ^ lb ≤ (q.den : ℚ) := by exact_mod_cast hB1
  have hB2Q : (q.den : ℚ) < (2 : ℚ) ^ (lb + 1) := by exact_mod_cast hB2
  have hupper : q < pow2z ((la : ℤ) - lb + 1) := by
    have heq : pow2z ((la : ℤ) - lb + 1) = (2 : ℚ) ^ (la + 1) / (2 : ℚ) ^ lb := by
      rw [show (la : ℤ) - lb + 1 = ((la + 1 : ℕ) : ℤ) - (lb : ℤ) by push_cast; ring,
        pow2z_eq_zpow, zpow_sub₀ two_ne_zero, zpow_natCast, zpow_natCast]
    rw [heq, hqab, div_lt_div_iff hbq (by positivity)]
    have h2lb : (0 : ℚ) < (2 : ℚ) ^ lb := by positivity
    nlinarith [mul_le_mul_of_nonneg_left hB1Q (le_of_lt (lt_of_le_of_lt
      (by positivity : (0 : ℚ) ≤ (q.num.natAbs : ℚ)) hA2Q))]
  have hlower : pow2z ((la : ℤ) - lb - 1) ≤ q := by
    have heq : pow2z ((la : ℤ) - lb - 1) = (2 : ℚ) ^ la / (2 : ℚ) ^ (lb + 1) := by
      rw [show (la : ℤ) - lb - 1 = ((la : ℕ) : ℤ) - ((lb + 1 : ℕ) : ℤ) by push_cast; ring,
        pow2z_eq_zpow, zpow_sub₀ two_ne_zero, zpow_natCast, zpow_natCast]
    rw [heq, hqab, div_le_div_iff (by positivity) hbq]
    nlinarith [mul_le_mul_of_nonneg_left hB2Q.le (le_trans (by positivity) hA1Q)]
  simp only [ratLog2]
  rw [← hla, ← hlb]
  split
  · rename_i hcase
    refine ⟨hlower, ?_⟩
    rw [show (la : ℤ) - lb - 1 + 1 = (la : ℤ) - lb by ring]
    exact hcase
  · rename_i hcase
    exact ⟨le_of_not_lt hcase, hupper⟩

theorem flPos_abs_err (q : ℚ) (hq : 0 < q) : |flPos q - q| ≤ q * pow2z (-53) := by
  obtain ⟨hl1, hl2⟩ := ratLog2_spec q hq
  simp only [flPos]
  set l := ratLog2 q with hldef
  set e : ℤ := l - 52 with he
  set s : ℚ := q * pow2z (-e) with hs
  have hqe : s * pow2z e = q := by
    rw [hs, mul_assoc, pow2z_neg_mul_self, mul_one]
  have hsplit : (rne s : ℚ) * pow2z e - q = ((rne s : ℚ) - s) * pow2z e := by
    rw [sub_mul, hqe]
  rw [hsplit, abs_mul, abs_of_pos (pow2z_pos e)]
  have hb := rne_abs_sub_le s
  have hpe : pow2z e = pow2z l * pow2z (-52) := by
    rw [← pow2z_add]
    congr 1
  have hhalf : (1 / 2 : ℚ) * pow2z (-52) = pow2z (-53) := by
    have h1 : pow2z (-52 : ℤ) = pow2z (-53) * pow2z 1 := by
      rw [← pow2z_add]
      norm_num
    have h2 : pow2z (1 : ℤ) = 2 := by norm_num [pow2z]
    rw [h1, h2]
    ring
  calc |(rne s : ℚ) - s| * pow2z e ≤ (1 / 2) * pow2z e :=
        mul_le_mul_of_nonneg_right hb (pow2z_pos e).le
    _ = pow2z l * ((1 / 2) * pow2z (-52)) := by rw [hpe]; ring
    _ = pow2z l * pow2z (-53) := by rw [hhalf]
    _ ≤ q * pow2z (-53) := mul_le_mul_of_nonneg_right hl1 (pow2z_pos _).le

theorem fl_abs_err (q : ℚ) (h : 0 ≤ q) : |fl q - q| ≤ q * pow2z (-53) := by
  rcases eq_or_lt_of_le h with h0 | hpos
  · rw [fl, if_pos h0.symm, ← h0]
    simp
  · rw [fl, if_neg (ne_of_gt hpos), if_neg (not_lt.mpr h)]
    exact flPos_abs_err q hpos

theorem fl_nonneg (q : ℚ) (h : 0 ≤ q) : 0 ≤ fl q := by
  have herr := fl_abs_err q h
  have h53 : pow2z (-53) ≤ 1 := by
    have := pow2z_le_pow2z (by omega : (-53 : ℤ) ≤ 0)
    rwa [pow2z_zero] at this
  rw [abs_le] at herr
  nlinarith [herr.1]

theorem fl_natCast_exact (n : ℕ) (h : n ≤ 2 ^ 52) : fl (n : ℚ) = n := by
  rcases Nat.eq_zero_or_pos n with h0 | h1
  · subst h0
    simp [fl]
  have hq : (0 : ℚ) < (n : ℚ) := by exact_mod_cast h1
  rw [fl, if_neg (ne_of_gt hq), if_neg (not_lt.mpr hq.le)]
  obtain ⟨hl1, hl2⟩ := ratLog2_spec (n : ℚ) hq
  simp only [flPos]
  set l := ratLog2 (n : ℚ) with hldef
  have hl0 : 0 ≤ l := by
    by_contra hneg
    push_neg at hneg
    have hle : pow2z (l + 1) ≤ pow2z 0 := pow2z_le_pow2z (by omega)
    rw [pow2z_zero] at hle
    have hlt : (n : ℚ) < 1 := lt_of_lt_of_le hl2 hle
    have : n < 1 := by exact_mod_cast hlt
    omega
  have hl52 : l ≤ 52 := by
    by_contra hgt
    push_neg at hgt
    have hp1 : pow2z 53 ≤ pow2z l := pow2z_le_pow2z (by omega)
    have hp2 : pow2z ((53 : ℕ) : ℤ) = (2 : ℚ) ^ (53 : ℕ) := pow2z_natCast 53
    have hp3 : (2 : ℚ) ^ (53 : ℕ) ≤ (n : ℚ) := by
      refine le_trans ?_ hl1
      rw [← hp2]
      exact_mod_cast hp1
    have hn53 : (2 ^ 53 : ℕ) ≤ n := by exact_mod_cast hp3
    have : (2 ^ 53 : ℕ) ≤ 2 ^ 52 := le_trans hn53 h
    omega
  set e : ℤ := l - 52 with he
  have hne : 0 ≤ -e := by omega
  have hpe : pow2z (-e) = ((2 ^ (-e).toNat : ℕ) : ℚ) := by
    rw [pow2z, if_pos hne]
  have hs : (n : ℚ) * pow2z (-e) = (((n * 2 ^ (-e).toNat : ℕ) : ℤ) : ℚ) := by
    rw [hpe]
    push_cast
    ring
  rw [hs, rne_intCast]
  rw [← hs]
  rw [mul_assoc, pow2z_neg_mul_self, mul_one]

theorem fl_intCast_exact (n : ℤ) (h0 : 0 ≤ n) (h : n ≤ 2 ^ 52) : fl (n : ℚ) = n := by
  lift n to ℕ using h0
  have hn : n ≤ 2 ^ 52 := by exact_mod_cast h
  exact_mod_cast fl_natCast_exact n hn

/-! ## Shared helper lemmas about the embedded transforms -/

theorem goDiv_of_nonneg (a b : ℤ) (h : 0 ≤ a) : goDiv a b = a / b := by
  rw [goDiv, if_pos h]

/-! ## Claim C9: addPadding is the identity for non-positive padding -/

/-- C9: for every image and every targetSize, `addPadding` with
`paddingPercent ≤ 0` returns the input image unchanged. -/
theorem addPadding_nonpos_noop (img : Image) (paddingPercent targetSize : ℤ)
    (h : paddingPercent ≤ 0) : addPadding img paddingPercent targetSize = img := by
  rw [addPadding, if_pos h]

theorem addPadding_nonpos_noop_witness : addPadding img4 0 16 = img4 :=
  addPadding_nonpos_noop img4 0 16 (by decide)

/-! ## Claim C4: cropCenter geometry -/

/-- C4: for `W, H ≥ 1` and `percent ∈ [1, 100]`, `cropCenter` returns a buffer of
exactly `⌊W*percent/100⌋ × ⌊H*percent/100⌋` pixels extracted as the centered
rectangle at offsets `(W - cropW)/2`, `(H - cropH)/2`, and at `percent = 100` the
output equals the input pixel for pixel. -/
theorem cropCenter_spec (img : Image) (percent : ℤ)
    (hw : 1 ≤ img.width) (hh : 1 ≤ img.height) (hp1 : 1 ≤ percent) (hp2 : percent ≤ 100) :
    (cropCenter img percent).width = img.width * percent / 100 ∧
    (cropCenter img percent).height = img.height * percent / 100 ∧
    (∀ x y : ℤ, 0 ≤ x → x < img.width * percent / 100 →
      0 ≤ y → y < img.height * percent / 100 →
      (cropCenter img percent).pix x y =
        img.pix ((img.width - img.width * percent / 100) / 2 + x)
          ((img.height - img.height * percent / 100) / 2 + y)) ∧
    (percent = 100 →
      (cropCenter img percent).width = img.width ∧
      (cropCenter img percent).height = img.height ∧
      ∀ x y : ℤ, 0 ≤ x → x < img.width → 0 ≤ y → y < img.height →
        (cropCenter img percent).pix x y = img.pix x y) := by
  have hwp0 : 0 ≤ img.width * percent := mul_nonneg (by omega) (by omega)
  have hhp0 : 0 ≤ img.height * percent := mul_nonneg (by omega) (by omega)
  have hwp : img.width * percent ≤ 100 * img.width := by nlinarith
  have hhp : img.height * percent ≤ 100 * img.height := by nlinarith
  have hcw : goDiv (img.width * percent) 100 = img.width * percent / 100 :=
    goDiv_of_nonneg _ _ hwp0
  have hch : goDiv (img.height * percent) 100 = img.height * percent / 100 :=
    goDiv_of_nonneg _ _ hhp0
  have hcwB : 0 ≤ img.width * percent / 100 ∧ img.width * percent / 100 ≤ img.width := by
    omega
  have hchB : 0 ≤ img.height * percent / 100 ∧ img.height * percent / 100 ≤ img.height := by
    omega
  have hox : goDiv (img.width - img.width * percent / 100) 2 =
      (img.width - img.width * percent / 100) / 2 :=
    goDiv_of_nonneg _ _ (by omega)
  have hoy : goDiv (img.height - img.height * percent / 100) 2 =
      (img.height - img.height * percent / 100) / 2 :=
    goDiv_of_nonneg _ _ (by omega)
  refine ⟨?_, ?_, ?_, ?_⟩
  · simp only [cropCenter]
    exact hcw
  · simp only [cropCenter]
    exact hch
  · intro x y hx0 hx1 hy0 hy1
    simp only [cropCenter]
    rw [hcw, hch, hox, hoy]
    rw [if_pos ?_]
    constructor
    · omega
    constructor
    · omega
    constructor
    · omega
    constructor
    · omega
    constructor
    · omega
    constructor
    · omega
    constructor
    · omega
    · omega
  · intro h100
    subst h100
    have hw100 : img.width * 100 / 100 = img.width := by omega
    have hh100 : img.height * 100 / 100 = img.height := by omega
    refine ⟨by simp only [cropCenter]; omega, by simp only [cropCenter]; omega, ?_⟩
    intro x y hx0 hx1 hy0 hy1
    simp only [cropCenter]
    rw [hcw, hch, hox, hoy, hw100, hh100]
    rw [if_pos (by omega)]
    congr 1 <;> omega

theorem cropCenter_spec_witness :
    (cropCenter img6x4 50).width = 3 ∧ (cropCenter img6x4 50).height = 2 ∧
    (cropCenter img6x4 50).pix 0 0 = img6x4.pix 1 1 := by
  have h := cropCenter_spec img6x4 50 (by decide) (by decide) (by decide) (by decide)
  refine ⟨?_, ?_, ?_⟩
  · rw [h.1]; decide
  · rw [h.2.1]; decide
  · have := h.2.2.1 0 0 (by decide) (by decide) (by decide) (by decide)
    rw [this]
    congr 1 <;> decide

/-! ## Claim C1: resizeImage dimensions and transparent letterbox -/

/-- C1: for every source with `W, H ≥ 1` and every `targetSize ≥ 1`, `resizeImage`
returns a buffer of exactly `targetSize × targetSize` pixels and every pixel
outside the centered scaled-content rectangle (at offsets `resizeOffX/Y`, extent
`newContentWidth/Height`) is fully transparent: all four channels zero. -/
theorem resizeImage_spec (img : Image) (size : ℤ)
    (hw : 1 ≤ img.width) (hh : 1 ≤ img.height) (hs : 1 ≤ size) :
    (resizeImage img size).width = size ∧
    (resizeImage img size).height = size ∧
    ∀ X Y : ℤ, 0 ≤ X → X < size → 0 ≤ Y → Y < size →
      ¬(resizeOffX img size ≤ X ∧ X < resizeOffX img size + newContentWidth img size ∧
        resizeOffY img size ≤ Y ∧ Y < resizeOffY img size + newContentHeight img size) →
      (resizeImage img size).pix X Y = zeroPix := by
  refine ⟨rfl, rfl, ?_⟩
  intro X Y hX0 hX1 hY0 hY1 hout
  simp only [resizeImage]
  rw [if_pos ⟨hX0, hX1, hY0, hY1⟩, if_neg hout]

set_option maxRecDepth 400000 in
theorem resizeImage_spec_witness :
    (resizeImage img1x2 3).width = 3 ∧ (resizeImage img1x2 3).pix 0 0 = zeroPix :=
  ⟨(resizeImage_spec img1x2 3 (by decide) (by decide) (by decide)).1,
   (resizeImage_spec img1x2 3 (by decide) (by decide) (by decide)).2.2 0 0 (by decide)
     (by decide) (by decide) (by decide) (by decide)⟩

/-! ## Claim C7: validateConfig -/

/-- C7: `validateConfig` reports an error exactly when `trimPercent ∉ [1,100]`, or
`radiusPercent ∉ [0,50]`, or `paddingPercent ∉ [0,50]`, or the input does not
exist; out-of-range values are rejected (the config is never clamped: the
pipeline receives it unchanged), and a validation failure aborts the run before
any transform executes while success runs the pipeline on the original config. -/
theorem validateConfig_spec :
    (∀ (inputExists : Bool) (c : Config),
      (validateConfig inputExists c).isSome = true ↔
        (c.trimPercent < 1 ∨ 100 < c.trimPercent ∨
         c.radiusPercent < 0 ∨ 50 < c.radiusPercent ∨
         c.paddingPercent < 0 ∨ 50 < c.paddingPercent ∨
         inputExists = false)) ∧
    (∀ (inputExists : Bool) (c : Config) (src : Image) (e : ValidationError),
      validateConfig inputExists c = some e →
        runMain inputExists c src = Except.error e) ∧
    (∀ (inputExists : Bool) (c : Config) (src : Image),
      validateConfig inputExists c = none →
        runMain inputExists c src = Except.ok (generateIcons c src)) := by
  refine ⟨?_, ?_, ?_⟩
  · intro inputExists c
    cases inputExists with
    | false => simp [validateConfig]
    | true =>
      simp only [validateConfig, Bool.not_true, Bool.false_eq_true, if_false]
      split_ifs with h1 h2 h3
      · simp only [Bool.or_eq_true, decide_eq_true_eq] at h1
        simp only [Option.isSome_some, true_iff]
        tauto
      · simp only [Bool.or_eq_true, decide_eq_true_eq] at h2
        simp only [Option.isSome_some, true_iff]
        tauto
      · simp only [Bool.or_eq_true, decide_eq_true_eq] at h3
        simp only [Option.isSome_some, true_iff]
        tauto
      · simp only [Bool.or_eq_true, decide_eq_true_eq, not_or] at h1 h2 h3
        simp only [Option.isSome_none, Bool.false_eq_true, false_iff]
        intro hdis
        rcases hdis with h | h | h | h | h | h | h
        · omega
        · omega
        · omega
        · omega
        · omega
        · omega
        · exact absurd h (by simp)
  · intro inputExists c src e h
    simp [runMain, h]
  · intro inputExists c src h
    simp [runMain, h]

theorem validateConfig_spec_witness :
    runMain true { cfgSample with trimPercent := 0 } img4 =
      Except.error ValidationError.trimOutOfRange :=
  validateConfig_spec.2.1 true { cfgSample with trimPercent := 0 } img4
    ValidationError.trimOutOfRange (by decide)

/-! ## Claim C3: shouldKeepPixel (the corner mask) -/

/-- C3 counterexample: for size 3 and radius 2 the corner zones overlap.  Pixel
(1,0) lies in the top-right `radius × radius` zone and its squared distance to
that corner's inscribed-circle center (1,2) is `4 ≤ radius² = 4`, so the claim
says it is inside; but `shouldKeepPixel` resolves the overlap in favor of the
top-left zone, whose circle excludes the pixel, and masks it. -/
theorem shouldKeepPixel_overlap_counterexample :
    (0 : ℤ) < 2 ∧ (3 : ℤ) - 2 ≤ 1 ∧ (0 : ℤ) < 2 ∧
    ((1 : ℤ) - (3 - 2)) * (1 - (3 - 2)) + ((0 : ℤ) - 2) * (0 - 2) ≤ 2 * 2 ∧
    shouldKeepPixel 1 0 3 2 = false := by decide

/-- C3 amended: `shouldKeepPixel(x,y,size,0)` is true for every in-bounds pixel;
for `radius > 0` a pixel outside all four `radius × radius` corner zones is kept;
and — provided `2*radius ≤ size`, so that the four zones are the disjoint
partition the spec describes — a pixel in a corner zone is kept iff its squared
Euclidean distance to that corner's inscribed-circle center (the point offset by
`radius` inward along both axes) is at most `radius²`. -/
theorem shouldKeepPixel_spec :
    (∀ x y size : ℤ, 0 ≤ x → x < size → 0 ≤ y → y < size →
      shouldKeepPixel x y size 0 = true) ∧
    (∀ x y size radius : ℤ, 0 < radius →
      ¬(x < radius ∧ y < radius) → ¬(size - radius ≤ x ∧ y < radius) →
      ¬(x < radius ∧ size - radius ≤ y) → ¬(size - radius ≤ x ∧ size - radius ≤ y) →
      shouldKeepPixel x y size radius = true) ∧
    (∀ x y size radius : ℤ, 0 < radius → 2 * radius ≤ size →
      x < radius → y < radius →
      (shouldKeepPixel x y size radius = true ↔
        (x - radius) * (x - radius) + (y - radius) * (y - radius) ≤ radius * radius)) ∧
    (∀ x y size radius : ℤ, 0 < radius → 2 * radius ≤ size →
      size - radius ≤ x → y < radius →
      (shouldKeepPixel x y size radius = true ↔
        (x - (size - radius)) * (x - (size - radius)) + (y - radius) * (y - radius) ≤
          radius * radius)) ∧
    (∀ x y size radius : ℤ, 0 < radius → 2 * radius ≤ size →
      x < radius → size - radius ≤ y →
      (shouldKeepPixel x y size radius = true ↔
        (x - radius) * (x - radius) + (y - (size - radius)) * (y - (size - radius)) ≤
          radius * radius)) ∧
    (∀ x y size radius : ℤ, 0 < radius → 2 * radius ≤ size →
      size - radius ≤ x → size - radius ≤ y →
      (shouldKeepPixel x y size radius = true ↔
        (x - (size - radius)) * (x - (size - radius)) +
          (y - (size - radius)) * (y - (size - radius)) ≤ radius * radius)) := by
  refine ⟨?_, ?_, ?_, ?_, ?_, ?_⟩
  · intro x y size hx0 hx1 hy0 hy1
    simp [shouldKeepPixel]
  · intro x y size radius hr h1 h2 h3 h4
    have e1 : (decide (x < radius) && decide (y < radius)) = false := by
      rcases Decidable.em (x < radius) with hp | hp
      · rcases Decidable.em (y < radius) with hq | hq
        · exact absurd ⟨hp, hq⟩ h1
        · rw [decide_eq_false hq, Bool.and_false]
      · rw [decide_eq_false hp, Bool.false_and]
    have e2 : (decide (size - radius ≤ x) && decide (y < radius)) = false := by
      rcases Decidable.em (size - radius ≤ x) with hp | hp
      · rcases Decidable.em (y < radius) with hq | hq
        · exact absurd ⟨hp, hq⟩ h2
        · rw [decide_eq_false hq, Bool.and_false]
      · rw [decide_eq_false hp, Bool.false_and]
    have e3 : (decide (x < radius) && decide (size - radius ≤ y)) = false := by
      rcases Decidable.em (x < radius) with hp | hp
      · rcases Decidable.em (size - radius ≤ y) with hq | hq
        · exact absurd ⟨hp, hq⟩ h3
        · rw [decide_eq_false hq, Bool.and_false]
      · rw [decide_eq_false hp, Bool.false_and]
    have e4 : (decide (size - radius ≤ x) && decide (size - radius ≤ y)) = false := by
      rcases Decidable.em (size - radius ≤ x) with hp | hp
      · rcases Decidable.em (size - radius ≤ y) with hq | hq
        · exact absurd ⟨hp, hq⟩ h4
        · rw [decide_eq_false hq, Bool.and_false]
      · rw [decide_eq_false hp, Bool.false_and]
    simp only [shouldKeepPixel]
    rw [if_neg (by omega : ¬radius = 0), e1, e2, e3, e4]
    simp
  · intro x y size radius hr hsz hx hy
    simp only [shouldKeepPixel]
    rw [if_neg (by omega : ¬radius = 0), decide_eq_true hx, decide_eq_true hy,
      decide_eq_false (by omega : ¬(size - radius ≤ x)),
      decide_eq_false (by omega : ¬(size - radius ≤ y))]
    simp
  · intro x y size radius hr hsz hx hy
    simp only [shouldKeepPixel]
    rw [if_neg (by omega : ¬radius = 0), decide_eq_true hx, decide_eq_true hy,
      decide_eq_false (by omega : ¬(x < radius)),
      decide_eq_false (by omega : ¬(size - radius ≤ y))]
    simp
  · intro x y size radius hr hsz hx hy
    simp only [shouldKeepPixel]
    rw [if_neg (by omega : ¬radius = 0), decide_eq_true hx, decide_eq_true hy,
      decide_eq_false (by omega : ¬(y < radius)),
      decide_eq_false (by omega : ¬(size - radius ≤ x))]
    simp
  · intro x y size radius hr hsz hx hy
    simp only [shouldKeepPixel]
    rw [if_neg (by omega : ¬radius = 0), decide_eq_true hx, decide_eq_true hy,
      decide_eq_false (by omega : ¬(x < radius)),
      decide_eq_false (by omega : ¬(y < radius))]
    simp

theorem shouldKeepPixel_spec_witness :
    shouldKeepPixel 0 0 5 0 = true ∧
    shouldKeepPixel 5 0 12 3 = true ∧
    (shouldKeepPixel 1 1 10 2 = true ↔
      ((1 : ℤ) - 2) * (1 - 2) + ((1 : ℤ) - 2) * (1 - 2) ≤ 2 * 2) ∧
    (shouldKeepPixel 9 0 10 2 = true ↔
      ((9 : ℤ) - (10 - 2)) * (9 - (10 - 2)) + ((0 : ℤ) - 2) * (0 - 2) ≤ 2 * 2) ∧
    (shouldKeepPixel 0 9 10 2 = true ↔
      ((0 : ℤ) - 2) * (0 - 2) + ((9 : ℤ) - (10 - 2)) * (9 - (10 - 2)) ≤ 2 * 2) ∧
    (shouldKeepPixel 9 9 10 2 = true ↔
      ((9 : ℤ) - (10 - 2)) * (9 - (10 - 2)) +
        ((9 : ℤ) - (10 - 2)) * (9 - (10 - 2)) ≤ 2 * 2) :=
  ⟨shouldKeepPixel_spec.1 0 0 5 (by decide) (by decide) (by decide) (by decide),
   shouldKeepPixel_spec.2.1 5 0 12 3 (by decide) (by decide) (by decide) (by decide) (by decide),
   shouldKeepPixel_spec.2.2.1 1 1 10 2 (by decide) (by decide) (by decide) (by decide),
   shouldKeepPixel_spec.2.2.2.1 9 0 10 2 (by decide) (by decide) (by decide) (by decide),
   shouldKeepPixel_spec.2.2.2.2.1 0 9 10 2 (by decide) (by decide) (by decide) (by decide),
   shouldKeepPixel_spec.2.2.2.2.2 9 9 10 2 (by decide) (by decide) (by decide) (by decide)⟩

/-! ## Claim C8: addRoundedCorners at the corner and at the center -/

/-- C8 counterexample: the claim asserts the center pixel of the rounded result
is fully opaque for every square source of size ≥ 2·radius.  A fully transparent
2 × 2 source with radius 1 satisfies the hypotheses, the mask keeps its center
pixel, and that pixel has alpha 0, not full opacity. -/
theorem addRoundedCorners_center_counterexample :
    (2 : ℤ) * 1 ≤ img2clear.width ∧ (0 : ℤ) < 1 ∧
    img2clear.width = img2clear.height ∧
    ((addRoundedCorners img2clear 1).pix (goDiv img2clear.width 2)
        (goDiv img2clear.width 2)).a = 0 ∧
    ¬(((addRoundedCorners img2clear 1).pix (goDiv img2clear.width 2)
        (goDiv img2clear.width 2)).a = 255) := by decide

/-- C8 amended: for every square image of size ≥ 2·radius and radius > 0, pixel
(0,0) of the rounded result is fully transparent, and the center pixel
(size/2, size/2) is taken unchanged from the source — hence fully opaque
whenever the source's center pixel is fully opaque. -/
theorem addRoundedCorners_spec (img : Image) (radius : ℤ)
    (hsq : img.width = img.height) (hr : 0 < radius) (hs : 2 * radius ≤ img.width) :
    (addRoundedCorners img radius).pix 0 0 = zeroPix ∧
    (addRoundedCorners img radius).pix (goDiv img.width 2) (goDiv img.width 2) =
      img.pix (goDiv img.width 2) (goDiv img.width 2) ∧
    ((img.pix (goDiv img.width 2) (goDiv img.width 2)).a = 255 →
      ((addRoundedCorners img radius).pix (goDiv img.width 2)
        (goDiv img.width 2)).a = 255) := by
  have hw2 : 2 ≤ img.width := by omega
  have hgd : goDiv img.width 2 = img.width / 2 := goDiv_of_nonneg _ _ (by omega)
  have p1 : (addRoundedCorners img radius).pix 0 0 = zeroPix := by
    have hkeep : shouldKeepPixel 0 0 img.width radius = false := by
      simp only [shouldKeepPixel]
      rw [if_neg (by omega : ¬radius = 0),
        decide_eq_true (by omega : (0 : ℤ) < radius),
        decide_eq_false (by omega : ¬(img.width - radius ≤ (0 : ℤ)))]
      simp only [Bool.and_self, Bool.true_and, Bool.and_true, Bool.and_false,
        Bool.false_and, Bool.or_false, Bool.false_or, Bool.or_true, Bool.true_or,
        Bool.not_true, Bool.false_eq_true, if_false, if_true]
      exact decide_eq_false (by nlinarith [mul_pos hr hr])
    simp only [addRoundedCorners]
    rw [if_pos ⟨le_refl 0, by omega, le_refl 0, by omega, by omega⟩, hkeep]
    rw [if_neg (by simp)]
  set m := img.width / 2 with hm
  have hm1 : radius ≤ m := by omega
  have hm2 : m < img.width := by omega
  have hm0 : 0 ≤ m := by omega
  have hkeepc : shouldKeepPixel m m img.width radius = true := by
    by_cases hbr : img.width - radius ≤ m
    · simp only [shouldKeepPixel]
      rw [if_neg (by omega : ¬radius = 0),
        decide_eq_false (by omega : ¬(m < radius)), decide_eq_true hbr]
      simp only [Bool.and_self, Bool.true_and, Bool.and_true, Bool.and_false,
        Bool.false_and, Bool.or_false, Bool.false_or, Bool.or_true, Bool.true_or,
        Bool.not_true, Bool.false_eq_true, if_false, if_true]
      refine decide_eq_true ?_
      rw [show m - (img.width - radius) = 0 by omega]
      nlinarith [mul_pos hr hr]
    · simp only [shouldKeepPixel]
      rw [if_neg (by omega : ¬radius = 0),
        decide_eq_false (by omega : ¬(m < radius)), decide_eq_false hbr]
      simp
  have p2 : (addRoundedCorners img radius).pix m m = img.pix m m := by
    simp only [addRoundedCorners]
    rw [if_pos ⟨hm0, hm2, hm0, hm2, by omega⟩, hkeepc]
    rw [if_pos rfl]
  refine ⟨p1, ?_, ?_⟩
  · rw [hgd]
    exact p2
  · intro h
    rw [hgd] at h ⊢
    rw [p2]
    exact h

theorem addRoundedCorners_spec_witness :
    (addRoundedCorners img4 1).pix 0 0 = zeroPix ∧
    ((addRoundedCorners img4 1).pix (goDiv img4.width 2) (goDiv img4.width 2)).a = 255 :=
  ⟨(addRoundedCorners_spec img4 1 rfl (by decide) (by decide)).1,
   (addRoundedCorners_spec img4 1 rfl (by decide) (by decide)).2.2 (by decide)⟩

/-! ## Claim C6: the pipeline emits 22 (or 11) square buffers -/

theorem addPadding_dims (img : Image) (pp ts : ℤ) (h : 0 < pp) :
    (addPadding img pp ts).width = ts ∧ (addPadding img pp ts).height = ts := by
  rw [addPadding, if_neg (by omega)]
  exact ⟨rfl, rfl⟩

theorem shouldApplyPadding_pos (c : Config) (s : IconSize)
    (h : shouldApplyPadding c s = true) : 0 < c.paddingPercent := by
  unfold shouldApplyPadding at h
  simp only [Bool.and_eq_true, decide_eq_true_eq] at h
  exact h.1

theorem specOutputs_length (c : Config) (source : Image) (s : IconSize) :
    (specOutputs c source s).length = if 0 < c.radiusPercent then 2 else 1 := by
  simp only [specOutputs]
  split <;> rfl

theorem specOutputs_mem (c : Config) (source : Image) (s : IconSize) :
    ∀ p ∈ specOutputs c source s, p.2.width = s.size ∧ p.2.height = s.size ∧
      (p.1 = s.name ∨ p.1 = roundedName s.name) := by
  have hproc : ∀ base : Image, base.width = s.size → base.height = s.size →
      (if shouldApplyPadding c s then addPadding base c.paddingPercent s.size
        else base).width = s.size ∧
      (if shouldApplyPadding c s then addPadding base c.paddingPercent s.size
        else base).height = s.size := by
    intro base hbw hbh
    by_cases hap : shouldApplyPadding c s = true
    · rw [if_pos hap]
      exact addPadding_dims base _ _ (shouldApplyPadding_pos c s hap)
    · rw [if_neg hap]
      exact ⟨hbw, hbh⟩
  intro p hp
  simp only [specOutputs] at hp
  by_cases hrad : 0 < c.radiusPercent
  · rw [if_pos hrad] at hp
    simp only [List.mem_cons, List.not_mem_nil, or_false] at hp
    rcases hp with hp | hp
    · rw [hp]
      obtain ⟨h1, h2⟩ := hproc (resizeImage source s.size) rfl rfl
      exact ⟨h1, h2, Or.inl rfl⟩
    · rw [hp]
      obtain ⟨h1, h2⟩ := hproc
        (addRoundedCorners (resizeImage source s.size)
          (goDiv (s.size * c.radiusPercent) 100)) rfl rfl
      exact ⟨h1, h2, Or.inr rfl⟩
  · rw [if_neg hrad] at hp
    simp only [List.mem_cons, List.not_mem_nil, or_false] at hp
    rw [hp]
    obtain ⟨h1, h2⟩ := hproc (resizeImage source s.size) rfl rfl
    exact ⟨h1, h2, Or.inl rfl⟩

/-- C6: over the fixed 11-entry spec table, a run with a valid configuration
emits exactly 22 buffers (a regular and a rounded variant per spec) when
`radiusPercent > 0` and exactly 11 (no rounded variants) when `radiusPercent = 0`;
every emitted buffer is square with its spec's size, named either by the spec or
by its derived rounded name. -/
theorem generateIcons_emission (c : Config) (src : Image)
    (hv : validateConfig true c = none) :
    (0 < c.radiusPercent → (generateIcons c src).length = 22) ∧
    (c.radiusPercent = 0 → (generateIcons c src).length = 11) ∧
    (∀ p ∈ generateIcons c src, p.2.width = p.2.height ∧
      ∃ s ∈ iconSizes, p.2.width = s.size ∧
        (p.1 = s.name ∨ p.1 = roundedName s.name)) := by
  refine ⟨?_, ?_, ?_⟩
  · intro hr
    simp only [generateIcons, iconSizes, List.flatMap_cons, List.flatMap_nil,
      List.append_nil, List.length_append, specOutputs_length, if_pos hr]
  · intro hr
    simp only [generateIcons, iconSizes, List.flatMap_cons, List.flatMap_nil,
      List.append_nil, List.length_append, specOutputs_length,
      if_neg (by omega : ¬(0 < c.radiusPercent))]
  · intro p hp
    rw [generateIcons, List.mem_flatMap] at hp
    obtain ⟨s, hs, hps⟩ := hp
    obtain ⟨h1, h2, h3⟩ := specOutputs_mem c _ s p hps
    exact ⟨by rw [h1, h2], s, hs, h1, h3⟩

theorem generateIcons_emission_witness :
    (generateIcons cfgSample img4).length = 22 ∧
    (generateIcons { cfgSample with radiusPercent := 0 } img4).length = 11 :=
  ⟨(generateIcons_emission cfgSample img4 (by decide)).1 (by decide),
   (generateIcons_emission { cfgSample with radiusPercent := 0 } img4
      (by decide)).2.1 (by decide)⟩

/-! ## Claim C5: iOS mode exempts exactly the base spec from padding -/

/-- C5: with `paddingPercent > 0` and iOS mode enabled, the pipeline skips
padding exactly for the base `icon_1024x1024.png` spec: that spec's regular and
rounded variants equal those of the pipeline run with padding disabled
(pixel-identical, same post-crop source), while every other spec's regular and
rounded variants are the padded buffers. -/
theorem generateIcons_ios_excludes_base (c : Config) (src : Image)
    (hpp : 0 < c.paddingPercent) (hios : c.paddingIOSMode = true) :
    generateIcons c src = iconSizes.flatMap (specOutputs c (cropSource c src)) ∧
    cropSource { c with paddingPercent := 0 } src = cropSource c src ∧
    ∀ s ∈ iconSizes,
      (s.name = ("icon_1024x1024.png" : String) →
        specOutputs c (cropSource c src) s =
          specOutputs { c with paddingPercent := 0 } (cropSource c src) s) ∧
      (s.name ≠ ("icon_1024x1024.png" : String) →
        specOutputs c (cropSource c src) s =
          if 0 < c.radiusPercent then
            [(s.name,
              addPadding (resizeImage (cropSource c src) s.size) c.paddingPercent s.size),
             (roundedName s.name,
              addPadding (addRoundedCorners (resizeImage (cropSource c src) s.size)
                (goDiv (s.size * c.radiusPercent) 100)) c.paddingPercent s.size)]
          else
            [(s.name,
              addPadding (resizeImage (cropSource c src) s.size) c.paddingPercent
                s.size)]) := by
  refine ⟨rfl, rfl, ?_⟩
  intro s hs
  constructor
  · intro hbase
    have hap : shouldApplyPadding c s = false := by
      unfold shouldApplyPadding
      rw [hios, decide_eq_true hbase]
      simp
    have hap0 : shouldApplyPadding { c with paddingPercent := 0 } s = false := by
      unfold shouldApplyPadding
      simp
    simp only [specOutputs, hap, hap0, Bool.false_eq_true, if_false]
  · intro hbase
    have hap : shouldApplyPadding c s = true := by
      unfold shouldApplyPadding
      rw [hios, decide_eq_false hbase, decide_eq_true hpp]
      simp
    simp only [specOutputs, hap, if_true]

theorem generateIcons_ios_excludes_base_witness :
    specOutputs cfgSample (cropSource cfgSample img4) ⟨"icon_1024x1024.png", 1024⟩ =
      specOutputs { cfgSample with paddingPercent := 0 } (cropSource cfgSample img4)
        ⟨"icon_1024x1024.png", 1024⟩ :=
  ((generateIcons_ios_excludes_base cfgSample img4 (by decide) (by decide)).2.2
    ⟨"icon_1024x1024.png", 1024⟩ (by decide)).1 (by decide)

/-! ## Claim C10: a 1-pixel-wide or 1-pixel-tall source resizes to a fully
transparent buffer -/

theorem resizeScale_nonneg (img : Image) (size : ℤ)
    (hw : 0 ≤ img.width) (hh : 0 ≤ img.height) (hs : 0 ≤ size) :
    0 ≤ resizeScale img size := by
  unfold resizeScale flDiv
  apply fl_nonneg
  apply div_nonneg (fl_nonneg _ (by exact_mod_cast hs))
  unfold goMax
  split
  · exact fl_nonneg _ (by exact_mod_cast hh)
  · exact fl_nonneg _ (by exact_mod_cast hw)

theorem computeResizedPixel_degenerate (img : Image) (scale : ℚ) (x y : ℤ)
    (hx : 0 ≤ x) (hy : 0 ≤ y) (hsc : 0 ≤ scale)
    (hdim : img.width = 1 ∨ img.height = 1) :
    computeResizedPixel img scale x y = zeroPix := by
  simp only [computeResizedPixel]
  rcases hdim with h1 | h1
  · have hsxf : (0 : ℚ) ≤ flDiv (fl (x : ℚ)) scale :=
      fl_nonneg _ (div_nonneg (fl_nonneg _ (by exact_mod_cast hx)) hsc)
    have hsx0 : 0 ≤ truncQ (flDiv (fl (x : ℚ)) scale) := truncQ_nonneg _ hsxf
    rw [h1]
    rw [if_pos (by omega : (1 : ℤ) - 1 ≤ truncQ (flDiv (fl (x : ℚ)) scale))]
    rw [if_neg (by rintro ⟨hcon, -⟩; omega)]
  · have hsyf : (0 : ℚ) ≤ flDiv (fl (y : ℚ)) scale :=
      fl_nonneg _ (div_nonneg (fl_nonneg _ (by exact_mod_cast hy)) hsc)
    have hsy0 : 0 ≤ truncQ (flDiv (fl (y : ℚ)) scale) := truncQ_nonneg _ hsyf
    rw [h1]
    rw [if_pos (by omega : (1 : ℤ) - 1 ≤ truncQ (flDiv (fl (y : ℚ)) scale))]
    rw [if_neg (by rintro ⟨-, hcon⟩; omega)]

/-- C10: for every source image whose width or height is 1 (the other dimension
arbitrary ≥ 1) and every targetSize ≥ 1, `resizeImage` returns a `targetSize ×
targetSize` buffer that is fully transparent everywhere: the edge clamp pushes
the source index to −1, below the lower-bound guard, so no content pixel is ever
written. -/
theorem resizeImage_degenerate_transparent (img : Image) (size : ℤ)
    (hdim : img.width = 1 ∨ img.height = 1)
    (hw : 1 ≤ img.width) (hh : 1 ≤ img.height) (hs : 1 ≤ size) :
    (resizeImage img size).width = size ∧ (resizeImage img size).height = size ∧
    ∀ X Y : ℤ, (resizeImage img size).pix X Y = zeroPix := by
  refine ⟨rfl, rfl, ?_⟩
  intro X Y
  have hsc : 0 ≤ resizeScale img size :=
    resizeScale_nonneg img size (by omega) (by omega) (by omega)
  simp only [resizeImage]
  split
  · split
    · rename_i hin hrect
      exact computeResizedPixel_degenerate img _ _ _ (by omega) (by omega) hsc hdim
    · rfl
  · rfl

theorem resizeImage_degenerate_transparent_witness :
    (resizeImage img1x2 3).width = 3 ∧ (resizeImage img1x2 3).pix 1 1 = zeroPix :=
  ⟨(resizeImage_degenerate_transparent img1x2 3 (Or.inl rfl) (by decide) (by decide)
      (by decide)).1,
   (resizeImage_degenerate_transparent img1x2 3 (Or.inl rfl) (by decide) (by decide)
      (by decide)).2.2 1 1⟩

/-! ## Claim C2: square sources and the exactness of the scaled content -/

set_option maxRecDepth 1000000 in
/-- C2 counterexample: for the square 49 × 49 source and targetSize 16 the
float64 computation `int(49 * (16.0/49.0))` evaluates to 15, not 16: the content
is 15 × 15, the offsets are 0, and the last row and column of the 16 × 16 output
stay transparent — the claim asserts the content dimensions equal 16 × 16. -/
theorem resize_square_fill_counterexample :
    img49.width = 49 ∧ img49.height = 49 ∧ (1 : ℤ) ≤ 16 ∧
    newContentWidth img49 16 = 15 ∧ newContentHeight img49 16 = 15 ∧
    resizeOffX img49 16 = 0 ∧ resizeOffY img49 16 = 0 ∧
    ¬(newContentWidth img49 16 = 16) ∧
    (resizeImage img49 16).pix 15 8 = zeroPix := by decide

set_option maxRecDepth 100000 in
/-- C2 amended: for every square source (`W = H`, `1 ≤ W ≤ 2^40`) and every
targetSize with `1 ≤ targetSize ≤ 2^40`, the computed content dimensions are
equal and lie in `{targetSize − 1, targetSize}` (float64 rounding can lose
exactly one pixel, as the counterexample shows it sometimes does), and the
centering offsets are both 0. -/
theorem resize_square_fill_amended (img : Image) (size : ℤ)
    (hsq : img.width = img.height) (hw : 1 ≤ img.width) (hwB : img.width ≤ 2 ^ 40)
    (hs : 1 ≤ size) (hsB : size ≤ 2 ^ 40) :
    (size - 1 ≤ newContentWidth img size ∧ newContentWidth img size ≤ size) ∧
    newContentHeight img size = newContentWidth img size ∧
    resizeOffX img size = 0 ∧ resizeOffY img size = 0 := by
  have hfw : fl (img.width : ℚ) = (img.width : ℚ) :=
    fl_intCast_exact _ (by omega) (by omega)
  have hfs : fl (size : ℚ) = (size : ℚ) :=
    fl_intCast_exact _ (by omega) (by omega)
  have hmax : goMax (fl (img.width : ℚ)) (fl (img.height : ℚ)) = (img.width : ℚ) := by
    rw [← hsq, hfw, goMax, if_neg (lt_irrefl _)]
  have hwQ : (0 : ℚ) < (img.width : ℚ) := by
    exact_mod_cast (by omega : (0 : ℤ) < img.width)
  have hsQ : (0 : ℚ) < (size : ℚ) := by exact_mod_cast (by omega : (0 : ℤ) < size)
  have hsQB : (size : ℚ) ≤ 2 ^ 40 := by exact_mod_cast hsB
  set q0 : ℚ := (size : ℚ) / (img.width : ℚ) with hq0
  have hq0pos : 0 < q0 := div_pos hsQ hwQ
  have hscale : resizeScale img size = fl q0 := by
    unfold resizeScale flDiv
    rw [hfs, hmax]
  have hsc0 : 0 ≤ fl q0 := fl_nonneg _ hq0pos.le
  have herr1 : |fl q0 - q0| ≤ q0 * pow2z (-53) := fl_abs_err _ hq0pos.le
  set v0 : ℚ := (img.width : ℚ) * fl q0 with hv0
  have hv00 : 0 ≤ v0 := mul_nonneg hwQ.le hsc0
  have herr2 : |fl v0 - v0| ≤ v0 * pow2z (-53) := fl_abs_err _ hv00
  have hnw : newContentWidth img size = truncQ (fl v0) := by
    unfold newContentWidth flMul
    rw [hfw, hscale, ← hv0]
  have hu : pow2z (-53) = 1 / 2 ^ 53 := by decide
  have hwq0 : (img.width : ℚ) * q0 = (size : ℚ) := by
    rw [hq0]
    field_simp
  have hb1 : |v0 - (size : ℚ)| ≤ (size : ℚ) * pow2z (-53) := by
    have hsplit : v0 - (size : ℚ) = (img.width : ℚ) * (fl q0 - q0) := by
      rw [hv0, ← hwq0]
      ring
    rw [hsplit, abs_mul, abs_of_pos hwQ]
    calc (img.width : ℚ) * |fl q0 - q0|
        ≤ (img.width : ℚ) * (q0 * pow2z (-53)) :=
          mul_le_mul_of_nonneg_left herr1 hwQ.le
      _ = ((img.width : ℚ) * q0) * pow2z (-53) := by ring
      _ = (size : ℚ) * pow2z (-53) := by rw [hwq0]
  have hv0up : v0 ≤ (size : ℚ) + (size : ℚ) * pow2z (-53) := by
    have := abs_le.mp hb1
    linarith [this.2]
  have herr2b : |fl v0 - v0| ≤ ((size : ℚ) + (size : ℚ) * pow2z (-53)) * pow2z (-53) :=
    le_trans herr2 (mul_le_mul_of_nonneg_right hv0up (pow2z_pos _).le)
  rw [hu] at hb1 herr2b
  have habs : |fl v0 - (size : ℚ)| < 1 / 2 := by
    calc |fl v0 - (size : ℚ)| ≤ |fl v0 - v0| + |v0 - (size : ℚ)| := abs_sub_le _ _ _
      _ ≤ ((size : ℚ) + (size : ℚ) * (1 / 2 ^ 53)) * (1 / 2 ^ 53) +
            (size : ℚ) * (1 / 2 ^ 53) := add_le_add herr2b hb1
      _ < 1 / 2 := by nlinarith [hsQB, hsQ]
  have habs2 := abs_sub_lt_iff.mp habs
  have hflpos : (0 : ℚ) ≤ fl v0 := fl_nonneg _ hv00
  have htr : truncQ (fl v0) = ⌊fl v0⌋ := truncQ_eq_floor _ hflpos
  have hlow : size - 1 ≤ truncQ (fl v0) := by
    rw [htr]
    apply Int.le_floor.mpr
    push_cast
    linarith [habs2.2]
  have hhigh : truncQ (fl v0) ≤ size := by
    rw [htr]
    have hlt : fl v0 < ((size + 1 : ℤ) : ℚ) := by
      push_cast
      linarith [habs2.1]
    have := Int.floor_lt.mpr hlt
    omega
  have hnh : newContentHeight img size = newContentWidth img size := by
    unfold newContentHeight newContentWidth
    rw [← hsq]
  have hA : size - 1 ≤ newContentWidth img size := by rw [hnw]; exact hlow
  have hB : newContentWidth img size ≤ size := by rw [hnw]; exact hhigh
  refine ⟨⟨hA, hB⟩, hnh, ?_, ?_⟩
  · unfold resizeOffX
    rw [goDiv_of_nonneg _ _ (by omega)]
    omega
  · unfold resizeOffY
    rw [hnh, goDiv_of_nonneg _ _ (by omega)]
    omega

set_option maxRecDepth 1000000 in
theorem resize_square_fill_amended_witness :
    ((16 : ℤ) - 1 ≤ newContentWidth img49 16 ∧ newContentWidth img49 16 ≤ 16) ∧
    newContentHeight img49 16 = newContentWidth img49 16 ∧
    resizeOffX img49 16 = 0 ∧ resizeOffY img49 16 = 0 :=
  resize_square_fill_amended img49 16 rfl (by decide) (by decide) (by decide) (by decide)

end IconGen
